import Mathlib

/-!
Shallow embedding of `sankey.py` (marcomanz/pySankey): a single function
`sankey(before, after, colorDict, aspect, rightColor, fontsize)` that draws a
two-column Sankey diagram with matplotlib.  Labels are modelled by an arbitrary
type `α` with decidable equality, colors by an arbitrary type `γ`, exact
numbers by `ℚ`.  The drawing surface is modelled as the list of drawing
commands issued; Python exceptions are modelled by an error option together
with the commands issued before the failure.
-/

namespace PySankey

variable {α : Type} [DecidableEq α] {γ : Type} {β : Type}

/-- Number of occurrences of `a` in `l`; models `Counter(...)[a]`,
`len(df[df.before == l])` and friends. -/
def freq (l : List α) (a : α) : ℕ := l.countP fun b => decide (b = a)

/-- Walk the list keeping the elements not seen before, in order; `seen` is
the set of already-recorded keys. -/
def uniqueFirstAux : List α → List α → List α
  | [], _ => []
  | a :: l, seen =>
    if a ∈ seen then uniqueFirstAux l seen else a :: uniqueFirstAux l (a :: seen)

/-- The distinct elements of `l` in first-occurrence order: the key order of a
Python `Counter`/`dict` built by iterating over `l`. -/
def uniqueFirst (l : List α) : List α := uniqueFirstAux l []

/-- Stable insertion into a list sorted by non-increasing `key`: the element is
placed before the first entry whose key is `≤` its own, so among equal keys the
inserted (originally earlier) element comes first. -/
def insertDesc (key : α → ℕ) (a : α) : List α → List α
  | [] => [a]
  | b :: l => if key b ≤ key a then a :: b :: l else b :: insertDesc key a l

/-- Stable sort by non-increasing `key`: models Python's stable
`sorted(..., key=count, reverse=True)` used by `Counter.most_common`. -/
def sortDesc (key : α → ℕ) : List α → List α
  | [] => []
  | a :: l => insertDesc key a (sortDesc key l)

/-- `np.r_[before, after]`: the combined observation list. -/
def combined (before after : List α) : List α := before ++ after

/-- The label column of `Counter(np.r_[before, after]).most_common()`: distinct
labels sorted by non-increasing combined count, ties in first-occurrence
order. -/
def mostCommonLabels (before after : List α) : List α :=
  sortDesc (freq (combined before after)) (uniqueFirst (combined before after))

/-- `allLabels` of the source, line 58: `most_common` labels reversed by the
trailing `[::-1]`. -/
def allLabelsList (before after : List α) : List α :=
  (mostCommonLabels before after).reverse

/-- Flow count `ns[l][l2]`: the number of rows of the dataframe with
`before == l` and `after == l2` (source lines 69-74). -/
def nsF (before after : List α) (l l2 : α) : ℕ :=
  (before.zip after).countP fun p => decide (p.1 = l) && decide (p.2 = l2)

/-- The per-label geometry dictionary `myD` of source lines 79-93. -/
structure LabelGeom where
  left : ℕ
  right : ℕ
  total : ℕ
  bottom : ℚ
  top : ℚ
  leftBottom : ℚ
  rightBottom : ℚ
deriving DecidableEq, Repr

/-- One entry of the `widths` dictionary (source lines 79-92) for label `l`
whose stacking slot starts at height `b`. -/
def mkGeom (before after : List α) (l : α) (b : ℚ) : LabelGeom :=
  let left := freq before l
  let right := freq after l
  let total := max left right
  let top := b + (total : ℚ)
  { left := left
    right := right
    total := total
    bottom := b
    top := top
    leftBottom := (top + b) / 2 - (left : ℚ) / 2
    rightBottom := (top + b) / 2 - (right : ℚ) / 2 }

/-- The inter-slot padding `0.02 * len(df)` (source line 89). -/
def padQ (before : List α) : ℚ := (2 / 100 : ℚ) * before.length

/-- The `widths` loop of source lines 77-94: stack the given labels starting at
height `b`, each subsequent slot at the previous top plus the padding. -/
def buildWidths (before after : List α) : List α → ℚ → List (α × LabelGeom)
  | [], _ => []
  | l :: ls, b =>
    let g := mkGeom before after l b
    (l, g) :: buildWidths before after ls (g.top + padQ before)

/-- The complete `widths` dictionary, in `allLabels` order, first slot at 0. -/
def widthsList (before after : List α) : List (α × LabelGeom) :=
  buildWidths before after (allLabelsList before after) 0

/-- Association-list lookup, modelling a Python dict access. -/
def assocGet : List (α × β) → α → Option β
  | [], _ => none
  | (k, v) :: l, a => if a = k then some v else assocGet l a

/-- The geometry record of label `l` (zero record if absent). -/
def geomOf (before after : List α) (l : α) : LabelGeom :=
  (assocGet (widthsList before after) l).getD
    { left := 0, right := 0, total := 0, bottom := 0, top := 0,
      leftBottom := 0, rightBottom := 0 }

/-- `topEdge` at source line 97: bound only by the `i > 0` branch of the widths
loop, hence defined iff there are at least two labels; then it is the `top` of
the last-stacked label.  `none` models the `NameError`. -/
def topEdgeOpt (before after : List α) : Option ℚ :=
  if 2 ≤ (widthsList before after).length then
    (widthsList before after).getLast?.map fun p => p.2.top
  else none

/-- One window of the `valid`-mode convolution with the kernel
`0.05 * np.ones(20)` (source lines 136-137): `0.05` times the sum of 20
consecutive samples of `g` starting at `n`. -/
def convAvg (g : ℕ → ℚ) (n : ℕ) : ℚ :=
  (5 / 100 : ℚ) * ((List.range 20).map fun m => g (n + m)).sum

/-- The 100-sample step sequence of source lines 133-135, as a function of the
sample index: `L` for the first 50 samples, `R` for the last 50. -/
def stepF (L R : ℚ) (i : ℕ) : ℚ := if i < 50 then L else R

/-- First convolution pass (81 valid samples). -/
def conv1 (L R : ℚ) : ℕ → ℚ := convAvg (stepF L R)

/-- Second convolution pass (62 valid samples). -/
def conv2 (L R : ℚ) : ℕ → ℚ := convAvg (conv1 L R)

/-- The 62-sample smoothed ribbon center curve `ys` of source lines 133-137. -/
def ysCurve (L R : ℚ) : List ℚ := (List.range 62).map (conv2 L R)

/-- The `ys` array for the strip of pair `(l, l2)`: step function between the
two ribbon centers `leftBottom + 0.5 * ns` and `rightBottom + 0.5 * ns`,
smoothed twice (source lines 133-137). -/
def ribbonYs (lb rb : ℚ) (flow : ℕ) : List ℚ :=
  ysCurve (lb + (flow : ℚ) / 2) (rb + (flow : ℚ) / 2)

/-- Pointwise cursor update `widths[a][...] += n` on a cursor function. -/
def updF (g : α → ℚ) (a : α) (n : ℕ) : α → ℚ :=
  fun y => if a = y then g y + (n : ℚ) else g y

/-- One step of the strip loop of source lines 141-142: advance the left cursor
of `p.1` and the right cursor of `p.2` by the flow of `p`. -/
def advance (f : α → α → ℕ) (st : (α → ℚ) × (α → ℚ)) (p : α × α) :
    (α → ℚ) × (α → ℚ) :=
  (updF st.1 p.1 (f p.1 p.2), updF st.2 p.2 (f p.1 p.2))

/-- All ordered pairs with first component from `outer` and second from `all`,
in the nested iteration order of source lines 127-128. -/
def ribbonPairs : List α → List α → List (α × α)
  | [], _ => []
  | l :: ls, all => (all.map fun l2 => (l, l2)) ++ ribbonPairs ls all

/-- The `(l, l2)` iteration domain of the strip loop. -/
def allPairs (labels : List α) : List (α × α) := ribbonPairs labels labels

/-- Initial left cursor: `widths[l]['leftBottom']` as computed at line 86/91. -/
def initLB (before after : List α) (x : α) : ℚ := (geomOf before after x).leftBottom

/-- Initial right cursor: `widths[l]['rightBottom']` at line 87/92. -/
def initRB (before after : List α) (x : α) : ℚ := (geomOf before after x).rightBottom

/-- Both cursor functions after the whole strip loop has run. -/
def finalCursors (before after : List α) : (α → ℚ) × (α → ℚ) :=
  (allPairs (allLabelsList before after)).foldl
    (advance (nsF before after)) (initLB before after, initRB before after)

/-- Position of `a` in a list: the enumeration index of source line 65. -/
def posOf : List α → α → ℕ
  | [], _ => 0
  | b :: l, a => if a = b then 0 else posOf l a + 1

/-- The ways a `sankey` call can raise, in source order: `ValueError` from the
DataFrame constructor (line 50), `IndexError` from `[:, 0]` on the empty
`most_common` array (line 58), `NameError` for the unbound `topEdge`
(line 97), `KeyError` from `colorDict[l]` (lines 104, 110, 146). -/
inductive SankeyError (α : Type) where
  | lengthMismatch
  | emptyIndexError
  | topEdgeUndefined
  | missingColor (l : α)
deriving DecidableEq, Repr

/-- One mutation of the drawing surface: figure creation, a `fill_between`
for an end-cap block (with its x-interval and y-interval), a label text, a
strip (with its smoothed center samples), or the final axis-off call. -/
inductive DrawCmd (α γ : Type) where
  | newFigure
  | fillLeft (l : α) (x0 x1 y0 y1 : ℚ) (c : γ)
  | fillRight (l : α) (x0 x1 y0 y1 : ℚ) (c : γ)
  | textLeft (l : α) (x y fs : ℚ)
  | textRight (l : α) (x y fs : ℚ)
  | ribbon (l l2 : α) (flow : ℕ) (xMax : ℚ) (ys : List ℚ) (c : γ)
  | axisOff
deriving DecidableEq, Repr

/-- The color resolution of source lines 61-66: a supplied dict is used
verbatim (lookup may fail), otherwise the palette color of the label's
enumeration index (never fails). -/
def colorFun (pal : ℕ → γ) (labels : List α) :
    Option (List (α × γ)) → α → Option γ
  | some d => fun l => assocGet d l
  | none => fun l => some (pal (posOf labels l))

/-- The block-and-label loop of source lines 100-124.  Returns the commands
issued and, if some label's color lookup failed, that label; commands of
earlier labels are kept, matching the exception semantics. -/
def drawBlocks (cd : α → Option γ) (w : α → LabelGeom) (xMax fs : ℚ) :
    List α → List (DrawCmd α γ) × Option α
  | [] => ([], none)
  | l :: rest =>
    match cd l with
    | none => ([], some l)
    | some c =>
      ([DrawCmd.fillLeft l (-(2 / 100 : ℚ) * xMax) 0 (w l).leftBottom
          ((w l).leftBottom + ((w l).left : ℚ)) c,
        DrawCmd.fillRight l xMax ((102 / 100 : ℚ) * xMax) (w l).rightBottom
          ((w l).rightBottom + ((w l).right : ℚ)) c,
        DrawCmd.textLeft l (-(5 / 100 : ℚ) * xMax)
          ((w l).leftBottom + ((w l).left : ℚ) / 2) fs,
        DrawCmd.textRight l ((105 / 100 : ℚ) * xMax)
          ((w l).rightBottom + ((w l).right : ℚ) / 2) fs]
        ++ (drawBlocks cd w xMax fs rest).1,
       (drawBlocks cd w xMax fs rest).2)

/-- The strip loop of source lines 127-146: for each pair, build the smoothed
`ys` from the current cursors, advance both cursors, then emit the strip with
the color of `l` (or of `l2` when `rightColor`). -/
def drawRibbons (cd : α → Option γ) (f : α → α → ℕ) (xMax : ℚ)
    (rightColor : Bool) :
    List (α × α) → (α → ℚ) → (α → ℚ) → List (DrawCmd α γ) × Option α
  | [], _, _ => ([], none)
  | (l, l2) :: ps, lb, rb =>
    match cd (if rightColor then l2 else l) with
    | none => ([], some (if rightColor then l2 else l))
    | some c =>
      (DrawCmd.ribbon l l2 (f l l2) xMax (ribbonYs (lb l) (rb l2) (f l l2)) c
          :: (drawRibbons cd f xMax rightColor ps
                (updF lb l (f l l2)) (updF rb l2 (f l l2))).1,
       (drawRibbons cd f xMax rightColor ps
          (updF lb l (f l l2)) (updF rb l2 (f l l2))).2)

/-- Result of a `sankey` call: the drawing commands issued and the exception
raised, if any. -/
structure SankeyRun (α γ : Type) where
  trace : List (DrawCmd α γ)
  err : Option (SankeyError α)
deriving DecidableEq, Repr

/-- The whole `sankey` function, in source order: create the figure, build the
DataFrame (raises on length mismatch), aggregate the labels (raises on empty
input), resolve colors, compute `ns` and `widths`, divide `topEdge` by the
aspect (raises when fewer than two labels), draw the end-cap blocks and texts
(a missing color raises there), draw the strips, disable the axis. -/
def sankeyModel (pal : ℕ → γ) (before after : List α)
    (colorDict : Option (List (α × γ))) (aspect : ℚ) (rightColor : Bool)
    (fontsize : ℚ) : SankeyRun α γ :=
  if before.length ≠ after.length then
    { trace := [DrawCmd.newFigure], err := some SankeyError.lengthMismatch }
  else if (allLabelsList before after).isEmpty then
    { trace := [DrawCmd.newFigure], err := some SankeyError.emptyIndexError }
  else
    match topEdgeOpt before after with
    | none =>
      { trace := [DrawCmd.newFigure], err := some SankeyError.topEdgeUndefined }
    | some te =>
      let cd := colorFun pal (allLabelsList before after) colorDict
      let bres := drawBlocks cd (geomOf before after) (te / aspect) fontsize
        (allLabelsList before after)
      match bres.2 with
      | some m =>
        { trace := DrawCmd.newFigure :: bres.1,
          err := some (SankeyError.missingColor m) }
      | none =>
        let rres := drawRibbons cd (nsF before after) (te / aspect) rightColor
          (allPairs (allLabelsList before after))
          (initLB before after) (initRB before after)
        match rres.2 with
        | some m =>
          { trace := DrawCmd.newFigure :: (bres.1 ++ rres.1),
            err := some (SankeyError.missingColor m) }
        | none =>
          { trace := DrawCmd.newFigure :: (bres.1 ++ rres.1 ++ [DrawCmd.axisOff]),
            err := none }

/-- The purely geometric content of a drawing command: everything except
colors and font size. -/
inductive CmdShape (α : Type) where
  | newFigure
  | fillLeft (l : α) (x0 x1 y0 y1 : ℚ)
  | fillRight (l : α) (x0 x1 y0 y1 : ℚ)
  | textLeft (l : α) (x y : ℚ)
  | textRight (l : α) (x y : ℚ)
  | ribbon (l l2 : α) (flow : ℕ) (xMax : ℚ) (ys : List ℚ)
  | axisOff
deriving DecidableEq, Repr

/-- Forget colors and font sizes, keeping the geometry of a command. -/
def shapeOf : DrawCmd α γ → CmdShape α
  | DrawCmd.newFigure => CmdShape.newFigure
  | DrawCmd.fillLeft l x0 x1 y0 y1 _ => CmdShape.fillLeft l x0 x1 y0 y1
  | DrawCmd.fillRight l x0 x1 y0 y1 _ => CmdShape.fillRight l x0 x1 y0 y1
  | DrawCmd.textLeft l x y _ => CmdShape.textLeft l x y
  | DrawCmd.textRight l x y _ => CmdShape.textRight l x y
  | DrawCmd.ribbon l l2 flow xMax ys _ => CmdShape.ribbon l l2 flow xMax ys
  | DrawCmd.axisOff => CmdShape.axisOff

/-! ### Lemmas about the label aggregation -/

theorem mem_uniqueFirstAux (x : α) :
    ∀ (l seen : List α), x ∈ uniqueFirstAux l seen ↔ x ∈ l ∧ x ∉ seen := by
  intro l
  induction l with
  | nil => simp [uniqueFirstAux]
  | cons a l ih =>
    intro seen
    by_cases ha : a ∈ seen
    · rw [uniqueFirstAux, if_pos ha, ih]
      simp only [List.mem_cons]
      constructor
      · rintro ⟨hx, hs⟩
        exact ⟨Or.inr hx, hs⟩
      · rintro ⟨rfl | hx, hs⟩
        · exact absurd ha hs
        · exact ⟨hx, hs⟩
    · rw [uniqueFirstAux, if_neg ha]
      simp only [List.mem_cons, ih]
      constructor
      · rintro (rfl | ⟨hx, hs⟩)
        · exact ⟨Or.inl rfl, ha⟩
        · exact ⟨Or.inr hx, fun hmem => hs (Or.inr hmem)⟩
      · rintro ⟨rfl | hx, hs⟩
        · exact Or.inl rfl
        · by_cases hxa : x = a
          · exact Or.inl hxa
          · exact Or.inr ⟨hx, by simp [hxa, hs]⟩

theorem mem_uniqueFirst (x : α) (l : List α) : x ∈ uniqueFirst l ↔ x ∈ l := by
  rw [uniqueFirst, mem_uniqueFirstAux]
  simp

theorem nodup_uniqueFirstAux :
    ∀ (l seen : List α), (uniqueFirstAux l seen).Nodup := by
  intro l
  induction l with
  | nil => simp [uniqueFirstAux]
  | cons a l ih =>
    intro seen
    by_cases ha : a ∈ seen
    · rw [uniqueFirstAux, if_pos ha]
      exact ih seen
    · rw [uniqueFirstAux, if_neg ha]
      refine List.nodup_cons.mpr ⟨fun hmem => ?_, ih (a :: seen)⟩
      exact ((mem_uniqueFirstAux a l (a :: seen)).mp hmem).2 (List.mem_cons_self a seen)

theorem nodup_uniqueFirst (l : List α) : (uniqueFirst l).Nodup :=
  nodup_uniqueFirstAux l []

theorem insertDesc_perm (key : α → ℕ) (a : α) :
    ∀ l : List α, (insertDesc key a l).Perm (a :: l) := by
  intro l
  induction l with
  | nil => simp [insertDesc]
  | cons b m ih =>
    by_cases h : key b ≤ key a
    · simp [insertDesc, h]
    · simp only [insertDesc, if_neg h]
      exact (ih.cons b).trans (List.Perm.swap a b m)

theorem sortDesc_perm (key : α → ℕ) : ∀ l : List α, (sortDesc key l).Perm l := by
  intro l
  induction l with
  | nil => simp [sortDesc]
  | cons a m ih =>
    exact (insertDesc_perm key a (sortDesc key m)).trans (ih.cons a)

theorem mem_insertDesc (key : α → ℕ) (a x : α) (l : List α) :
    x ∈ insertDesc key a l ↔ x = a ∨ x ∈ l := by
  rw [(insertDesc_perm key a l).mem_iff]
  simp

theorem pairwise_insertDesc (key : α → ℕ) (a : α) :
    ∀ l : List α, l.Pairwise (fun x y => key y ≤ key x) →
      (insertDesc key a l).Pairwise (fun x y => key y ≤ key x) := by
  intro l
  induction l with
  | nil => simp [insertDesc]
  | cons b m ih =>
    intro hp
    rcases List.pairwise_cons.mp hp with ⟨hb, hm⟩
    by_cases h : key b ≤ key a
    · rw [insertDesc, if_pos h]
      refine List.pairwise_cons.mpr ⟨?_, hp⟩
      intro y hy
      rcases List.mem_cons.mp hy with rfl | hy
      · exact h
      · exact le_trans (hb y hy) h
    · rw [insertDesc, if_neg h]
      refine List.pairwise_cons.mpr ⟨?_, ih hm⟩
      intro y hy
      rcases (mem_insertDesc key a y m).mp hy with rfl | hy
      · exact le_of_lt (lt_of_not_le h)
      · exact hb y hy

theorem pairwise_sortDesc (key : α → ℕ) :
    ∀ l : List α, (sortDesc key l).Pairwise (fun x y => key y ≤ key x) := by
  intro l
  induction l with
  | nil => simp [sortDesc]
  | cons a m ih => exact pairwise_insertDesc key a _ ih

theorem filter_insertDesc (key : α → ℕ) (a : α) (k : ℕ) :
    ∀ l : List α,
      (insertDesc key a l).filter (fun x => decide (key x = k)) =
        if key a = k then a :: l.filter (fun x => decide (key x = k))
        else l.filter (fun x => decide (key x = k)) := by
  intro l
  induction l with
  | nil =>
    by_cases h : key a = k <;> simp [insertDesc, List.filter, h]
  | cons b m ih =>
    by_cases hba : key b ≤ key a
    · rw [insertDesc, if_pos hba]
      by_cases hak : key a = k <;> simp [List.filter_cons, hak]
    · have hlt : key a < key b := lt_of_not_le hba
      rw [insertDesc, if_neg hba]
      by_cases hak : key a = k
      · have hbk : ¬ key b = k := by omega
        simp [List.filter_cons, ih, hak, hbk]
      · by_cases hbk : key b = k <;> simp [List.filter_cons, ih, hak, hbk]

theorem filter_sortDesc (key : α → ℕ) (k : ℕ) :
    ∀ l : List α,
      (sortDesc key l).filter (fun x => decide (key x = k)) =
        l.filter (fun x => decide (key x = k)) := by
  intro l
  induction l with
  | nil => simp [sortDesc]
  | cons a m ih =>
    by_cases hak : key a = k <;>
      simp [sortDesc, filter_insertDesc, hak, List.filter_cons, ih]

theorem nodup_allLabelsList (before after : List α) :
    (allLabelsList before after).Nodup := by
  rw [allLabelsList, List.nodup_reverse]
  exact ((sortDesc_perm _ _).nodup_iff).mpr
    (nodup_uniqueFirst (combined before after))

theorem mem_allLabelsList (before after : List α) (x : α) :
    x ∈ allLabelsList before after ↔ x ∈ before ++ after := by
  rw [allLabelsList, List.mem_reverse, mostCommonLabels,
    (sortDesc_perm _ _).mem_iff, mem_uniqueFirst]
  rfl

/-- C2 counterexample: for `before = ["A","A","B"]`, `after = ["X","Y","X"]`
the aggregated sequence is `["Y","B","X","A"]`, which is not sorted by
descending combined frequency (the first label has combined count 1, the last
has 2): the trailing `[::-1]` of source line 58 reverses `most_common`. -/
theorem labels_order_cex :
    allLabelsList ["A", "A", "B"] ["X", "Y", "X"] = ["Y", "B", "X", "A"] ∧
      ¬ (allLabelsList ["A", "A", "B"] ["X", "Y", "X"]).Pairwise
          (fun a b => freq (combined ["A", "A", "B"] ["X", "Y", "X"]) b ≤
            freq (combined ["A", "A", "B"] ["X", "Y", "X"]) a) := by
  constructor
  · decide
  · intro h
    have heq : allLabelsList ["A", "A", "B"] ["X", "Y", "X"] =
        ["Y", "B", "X", "A"] := by decide
    rw [heq] at h
    have := (List.pairwise_cons.mp h).1 "A" (by decide)
    revert this
    decide

/-- C2 amended: the aggregated category sequence is deduplicated (one entry
per category of `before ++ after`), sorted by ascending combined frequency,
and within each frequency the categories appear in the reverse of
first-encountered order. -/
theorem labels_order_amended (before after : List α) :
    (allLabelsList before after).Nodup ∧
      (∀ x, x ∈ allLabelsList before after ↔ x ∈ before ++ after) ∧
      (allLabelsList before after).Pairwise
        (fun a b => freq (combined before after) a ≤ freq (combined before after) b) ∧
      ∀ k, (allLabelsList before after).filter
            (fun x => decide (freq (combined before after) x = k)) =
          ((uniqueFirst (combined before after)).filter
            (fun x => decide (freq (combined before after) x = k))).reverse := by
  refine ⟨nodup_allLabelsList before after, mem_allLabelsList before after, ?_, ?_⟩
  · rw [allLabelsList, List.pairwise_reverse]
    exact pairwise_sortDesc _ _
  · intro k
    rw [allLabelsList, List.filter_reverse, mostCommonLabels, filter_sortDesc]

/-! ### Sum and counting helpers -/

theorem sum_map_add (l : List β) (f g : β → ℕ) :
    (l.map fun x => f x + g x).sum = (l.map f).sum + (l.map g).sum := by
  induction l with
  | nil => rfl
  | cons a t ih => simp [List.map_cons, List.sum_cons, ih]; omega

theorem sum_map_ite_left (labels : List α) (hnd : labels.Nodup) (x : α) (c : ℕ) :
    (labels.map fun y => if x = y then c else 0).sum = if x ∈ labels then c else 0 := by
  induction labels with
  | nil => simp
  | cons a t ih =>
    rcases List.nodup_cons.mp hnd with ⟨ha, ht⟩
    by_cases hx : x = a
    · subst hx
      have hz : (t.map fun y => if x = y then c else 0).sum = 0 := by
        refine List.sum_eq_zero fun v hv => ?_
        rcases List.mem_map.mp hv with ⟨y, hy, rfl⟩
        have : ¬ x = y := fun h => ha (h ▸ hy)
        simp [this]
      simp [hz]
    · have hmem : (x ∈ a :: t) ↔ x ∈ t := by simp [List.mem_cons, hx]
      simp [hx, ih ht, hmem]

theorem sum_map_ite_right (labels : List α) (hnd : labels.Nodup) (x : α) (c : ℕ) :
    (labels.map fun y => if y = x then c else 0).sum = if x ∈ labels then c else 0 := by
  rw [← sum_map_ite_left labels hnd x c]
  refine congrArg _ (List.map_congr_left fun y _ => ?_)
  by_cases h : y = x
  · subst h
    simp
  · have h2 : ¬ x = y := fun he => h he.symm
    simp [h, h2]

theorem countP_congr_mem (l : List β) (p q : β → Bool)
    (h : ∀ a ∈ l, p a = q a) : l.countP p = l.countP q := by
  induction l with
  | nil => rfl
  | cons a t ih =>
    rw [List.countP_cons, List.countP_cons, h a (List.mem_cons_self a t),
      ih fun b hb => h b (List.mem_cons_of_mem a hb)]

theorem sum_countP_partition (π : β → α) (q : β → Bool) (ps : List β)
    (labels : List α) (hnd : labels.Nodup) :
    (labels.map fun y => ps.countP fun p => q p && decide (π p = y)).sum =
      ps.countP fun p => q p && decide (π p ∈ labels) := by
  induction ps with
  | nil =>
    rw [List.countP_nil]
    refine List.sum_eq_zero fun v hv => ?_
    rcases List.mem_map.mp hv with ⟨y, _, rfl⟩
    exact List.countP_nil _
  | cons p ps ih =>
    have hmap : (labels.map fun y => (p :: ps).countP fun r => q r && decide (π r = y)) =
        labels.map fun y => (ps.countP fun r => q r && decide (π r = y)) +
          if q p && decide (π p = y) then 1 else 0 :=
      List.map_congr_left fun y _ => List.countP_cons _ p ps
    rw [hmap, sum_map_add, ih, List.countP_cons]
    refine congrArg _ ?_
    by_cases hq : q p
    · have h1 : (labels.map fun y => if q p && decide (π p = y) then 1 else 0) =
          labels.map fun y => if π p = y then 1 else 0 :=
        List.map_congr_left fun y _ => by simp [hq]
      rw [h1, sum_map_ite_left labels hnd (π p) 1]
      simp [hq]
    · have h1 : (labels.map fun y => if q p && decide (π p = y) then 1 else 0) =
          labels.map fun _ => 0 :=
        List.map_congr_left fun y _ => by simp [hq]
      rw [h1]
      simp [hq, List.sum_eq_zero]

theorem freq_eq_countP_fst (before after : List α)
    (h : before.length = after.length) (l : α) :
    ((before.zip after).countP fun p => decide (p.1 = l)) = freq before l := by
  have := List.countP_map (fun b => decide (b = l)) Prod.fst (before.zip after)
  rw [List.map_fst_zip before after (le_of_eq h)] at this
  exact this.symm

theorem freq_eq_countP_snd (before after : List α)
    (h : before.length = after.length) (l : α) :
    ((before.zip after).countP fun p => decide (p.2 = l)) = freq after l := by
  have := List.countP_map (fun b => decide (b = l)) Prod.snd (before.zip after)
  rw [List.map_snd_zip before after (le_of_eq h.symm)] at this
  exact this.symm

theorem sum_ns_left (before after : List α) (h : before.length = after.length)
    (l : α) :
    ((allLabelsList before after).map fun l2 => nsF before after l l2).sum =
      freq before l := by
  have hpart := sum_countP_partition Prod.snd (fun p => decide (p.1 = l))
    (before.zip after) (allLabelsList before after)
    (nodup_allLabelsList before after)
  have hns : ((allLabelsList before after).map fun l2 => nsF before after l l2) =
      (allLabelsList before after).map fun l2 =>
        (before.zip after).countP fun p => decide (p.1 = l) && decide (p.2 = l2) :=
    rfl
  rw [hns, hpart, ← freq_eq_countP_fst before after h l]
  refine countP_congr_mem _ _ _ fun p hp => ?_
  have hmem : p.2 ∈ allLabelsList before after :=
    (mem_allLabelsList before after p.2).mpr
      (List.mem_append.mpr (Or.inr (List.of_mem_zip hp).2))
  simp [hmem]

theorem sum_ns_right (before after : List α) (h : before.length = after.length)
    (l : α) :
    ((allLabelsList before after).map fun l2 => nsF before after l2 l).sum =
      freq after l := by
  have hpart := sum_countP_partition Prod.fst (fun p => decide (p.2 = l))
    (before.zip after) (allLabelsList before after)
    (nodup_allLabelsList before after)
  have hns : ((allLabelsList before after).map fun l2 => nsF before after l2 l) =
      (allLabelsList before after).map fun l2 =>
        (before.zip after).countP fun p => decide (p.2 = l) && decide (p.1 = l2) :=
    List.map_congr_left fun l2 _ =>
      countP_congr_mem _ _ _ fun p _ => Bool.and_comm _ _
  rw [hns, hpart, ← freq_eq_countP_snd before after h l]
  refine countP_congr_mem _ _ _ fun p hp => ?_
  have hmem : p.1 ∈ allLabelsList before after :=
    (mem_allLabelsList before after p.1).mpr
      (List.mem_append.mpr (Or.inl (List.of_mem_zip hp).1))
  simp [hmem]

/-- C6: flow conservation.  Summing the flow table over the destination (resp.
source) column in aggregated order gives the source's left count (resp. the
destination's right count). -/
theorem flow_conservation (before after : List α)
    (h : before.length = after.length) (l : α) :
    ((allLabelsList before after).map fun l2 => nsF before after l l2).sum =
        freq before l ∧
      ((allLabelsList before after).map fun l2 => nsF before after l2 l).sum =
        freq after l :=
  ⟨sum_ns_left before after h l, sum_ns_right before after h l⟩

/-- C6 witness at `before = ["A","A","B"]`, `after = ["X","Y","X"]`, `l = "A"`. -/
theorem flow_conservation_witness :
    ((allLabelsList ["A", "A", "B"] ["X", "Y", "X"]).map fun l2 =>
        nsF ["A", "A", "B"] ["X", "Y", "X"] "A" l2).sum =
      freq ["A", "A", "B"] "A" :=
  (flow_conservation ["A", "A", "B"] ["X", "Y", "X"] (by decide) "A").1

/-! ### The strip-loop cursors -/

theorem freq_eq_zero_of_not_mem (l : List α) (x : α) (hx : x ∉ l) :
    freq l x = 0 := by
  rw [freq, List.countP_eq_zero]
  intro a ha hda
  exact hx ((decide_eq_true_eq.mp hda) ▸ ha)

theorem foldl_advance_fst (f : α → α → ℕ) :
    ∀ (ps : List (α × α)) (st : (α → ℚ) × (α → ℚ)) (x : α),
      (ps.foldl (advance f) st).1 x =
        st.1 x + ((ps.map fun p => if p.1 = x then f p.1 p.2 else 0).sum : ℚ) := by
  intro ps
  induction ps with
  | nil => simp
  | cons p ps ih =>
    intro st x
    rw [List.foldl_cons, ih]
    have hadv : (advance f st p).1 x =
        if p.1 = x then st.1 x + (f p.1 p.2 : ℚ) else st.1 x := rfl
    rw [hadv]
    by_cases hp : p.1 = x <;> push_cast <;> simp [hp] <;> ring

theorem foldl_advance_snd (f : α → α → ℕ) :
    ∀ (ps : List (α × α)) (st : (α → ℚ) × (α → ℚ)) (x : α),
      (ps.foldl (advance f) st).2 x =
        st.2 x + ((ps.map fun p => if p.2 = x then f p.1 p.2 else 0).sum : ℚ) := by
  intro ps
  induction ps with
  | nil => simp
  | cons p ps ih =>
    intro st x
    rw [List.foldl_cons, ih]
    have hadv : (advance f st p).2 x =
        if p.2 = x then st.2 x + (f p.1 p.2 : ℚ) else st.2 x := rfl
    rw [hadv]
    by_cases hp : p.2 = x <;> push_cast <;> simp [hp] <;> ring

theorem sum_ribbonPairs_fst (f : α → α → ℕ) (x : α) (all : List α) :
    ∀ outer : List α,
      ((ribbonPairs outer all).map fun p => if p.1 = x then f p.1 p.2 else 0).sum =
        (outer.map fun l =>
          if l = x then (all.map fun l2 => f l l2).sum else 0).sum := by
  intro outer
  induction outer with
  | nil => rfl
  | cons l ls ih =>
    rw [ribbonPairs, List.map_append, List.sum_append, ih, List.map_map,
      List.map_cons, List.sum_cons]
    refine congrArg (fun t => t + _) ?_
    have hcomp : ((fun p : α × α => if p.1 = x then f p.1 p.2 else 0) ∘
        fun l2 => (l, l2)) = fun l2 => if l = x then f l l2 else 0 := rfl
    rw [hcomp]
    by_cases hl : l = x
    · subst hl
      simp
    · simp only [hl, if_false]
      exact List.sum_eq_zero fun v hv => by
        rcases List.mem_map.mp hv with ⟨y, _, rfl⟩
        rfl

theorem sum_ribbonPairs_snd (f : α → α → ℕ) (x : α) (all : List α)
    (hall : all.Nodup) :
    ∀ outer : List α,
      ((ribbonPairs outer all).map fun p => if p.2 = x then f p.1 p.2 else 0).sum =
        if x ∈ all then (outer.map fun l => f l x).sum else 0 := by
  intro outer
  induction outer with
  | nil => by_cases hx : x ∈ all <;> simp [ribbonPairs, hx]
  | cons l ls ih =>
    rw [ribbonPairs, List.map_append, List.sum_append, ih, List.map_map]
    have hcomp : ((fun p : α × α => if p.2 = x then f p.1 p.2 else 0) ∘
        fun l2 => (l, l2)) = fun l2 => if l2 = x then f l l2 else 0 := rfl
    rw [hcomp]
    have hcongr : (all.map fun l2 => if l2 = x then f l l2 else 0) =
        all.map fun l2 => if l2 = x then f l x else 0 :=
      List.map_congr_left fun l2 _ => by
        by_cases h2 : l2 = x
        · subst h2
          rfl
        · simp [h2]
    rw [hcongr, sum_map_ite_right all hall x (f l x)]
    by_cases hx : x ∈ all <;> simp [hx]

/-- C5: after the strip loop, every label's left cursor has advanced from its
initial `leftBottom` by exactly its left count (so the loop's final cursor sits
at the top of the left block), symmetrically for the right cursor; and after
any prefix of the loop the left cursor sits at the initial `leftBottom` plus
the flows of the strips already drawn from that label, so each strip starts
exactly where the previous one ended (zero gap, zero overlap). -/
theorem ribbon_cursor_tiling (before after : List α)
    (h : before.length = after.length) (x : α) :
    (finalCursors before after).1 x =
        initLB before after x + (freq before x : ℚ) ∧
      (finalCursors before after).2 x =
        initRB before after x + (freq after x : ℚ) ∧
      ∀ pre suf,
        allPairs (allLabelsList before after) = pre ++ suf →
        (pre.foldl (advance (nsF before after))
            (initLB before after, initRB before after)).1 x =
          initLB before after x +
            ((pre.map fun p =>
              if p.1 = x then nsF before after p.1 p.2 else 0).sum : ℚ) := by
  refine ⟨?_, ?_, fun pre suf _ => foldl_advance_fst (nsF before after) pre _ x⟩
  · rw [finalCursors, foldl_advance_fst, allPairs,
      sum_ribbonPairs_fst (nsF before after) x]
    have hcongr : ((allLabelsList before after).map fun l =>
        if l = x then ((allLabelsList before after).map fun l2 =>
          nsF before after l l2).sum else 0) =
        (allLabelsList before after).map fun l =>
          if l = x then ((allLabelsList before after).map fun l2 =>
            nsF before after x l2).sum else 0 :=
      List.map_congr_left fun l _ => by
        by_cases hl : l = x
        · subst hl
          rfl
        · simp [hl]
    rw [hcongr, sum_map_ite_right _ (nodup_allLabelsList before after) x _]
    by_cases hx : x ∈ allLabelsList before after
    · rw [if_pos hx, sum_ns_left before after h x]
    · rw [if_neg hx]
      have hxb : x ∉ before := fun hmem =>
        hx ((mem_allLabelsList before after x).mpr
          (List.mem_append.mpr (Or.inl hmem)))
      rw [freq_eq_zero_of_not_mem before x hxb]
  · rw [finalCursors, foldl_advance_snd, allPairs,
      sum_ribbonPairs_snd (nsF before after) x _
        (nodup_allLabelsList before after)]
    by_cases hx : x ∈ allLabelsList before after
    · rw [if_pos hx, sum_ns_right before after h x]
    · rw [if_neg hx]
      have hxa : x ∉ after := fun hmem =>
        hx ((mem_allLabelsList before after x).mpr
          (List.mem_append.mpr (Or.inr hmem)))
      rw [freq_eq_zero_of_not_mem after x hxa]

/-- C5 witness at `before = ["A","A","B"]`, `after = ["X","Y","X"]`, `x = "A"`. -/
theorem ribbon_cursor_tiling_witness :
    (finalCursors ["A", "A", "B"] ["X", "Y", "X"]).1 "A" =
      initLB ["A", "A", "B"] ["X", "Y", "X"] "A" +
        (freq ["A", "A", "B"] "A" : ℚ) :=
  (ribbon_cursor_tiling ["A", "A", "B"] ["X", "Y", "X"] (by decide) "A").1

/-! ### Stacked block layout -/

theorem buildWidths_top (before after : List α) :
    ∀ (ls : List α) (b : ℚ) (p : α × LabelGeom),
      p ∈ buildWidths before after ls b →
      p.2.top = p.2.bottom + ((max (freq before p.1) (freq after p.1) : ℕ) : ℚ) := by
  intro ls
  induction ls with
  | nil => intro b p hp; simp [buildWidths] at hp
  | cons l ls ih =>
    intro b p hp
    rw [buildWidths] at hp
    rcases List.mem_cons.mp hp with rfl | hp
    · rfl
    · exact ih _ p hp

theorem buildWidths_chain (before after : List α) :
    ∀ (ls : List α) (b : ℚ),
      (buildWidths before after ls b).Chain'
        (fun p q => q.2.bottom = p.2.top + padQ before) := by
  intro ls
  induction ls with
  | nil => intro b; exact List.chain'_nil
  | cons l ls ih =>
    intro b
    rw [buildWidths]
    refine List.chain'_cons'.mpr ⟨?_, ih _⟩
    intro y hy
    cases ls with
    | nil => simp [buildWidths] at hy
    | cons l2 ls2 =>
      rw [buildWidths] at hy
      simp only [List.head?_cons, Option.mem_def, Option.some.injEq] at hy
      subst hy
      rfl

/-- C7: in aggregated order the first slot's bottom is 0, each subsequent
slot's bottom is the previous slot's top plus `0.02 ·` (number of
observations), and every slot's top is its bottom plus
`max(left count, right count)`. -/
theorem stack_layout (before after : List α) :
    (∀ p, (widthsList before after).head? = some p → p.2.bottom = 0) ∧
      (widthsList before after).Chain'
        (fun p q => q.2.bottom = p.2.top + (2 / 100 : ℚ) * before.length) ∧
      ∀ p ∈ widthsList before after,
        p.2.top = p.2.bottom + ((max (freq before p.1) (freq after p.1) : ℕ) : ℚ) := by
  refine ⟨?_, buildWidths_chain before after _ 0, fun p hp =>
    buildWidths_top before after _ 0 p hp⟩
  intro p hp
  rw [widthsList] at hp
  cases hL : allLabelsList before after with
  | nil => rw [hL] at hp; simp [buildWidths] at hp
  | cons l ls =>
    rw [hL, buildWidths] at hp
    simp only [List.head?_cons, Option.some.injEq] at hp
    subst hp
    rfl

/-- C7 witness at `before = after = ["A","A"]`: the single slot has bottom 0. -/
theorem stack_layout_witness :
    ("A", mkGeom ["A", "A"] ["A", "A"] "A" 0).2.bottom = 0 :=
  (stack_layout ["A", "A"] ["A", "A"]).1 _ (by rfl)

/-! ### The smoothed ribbon curve -/

theorem sum_map_const_q (l : List β) (x : ℚ) :
    (l.map fun _ => x).sum = l.length * x := by
  induction l with
  | nil => simp
  | cons a t ih =>
    simp [ih]
    ring

theorem convAvg_const_window (g : ℕ → ℚ) (x : ℚ) (n : ℕ)
    (h : ∀ m, m < 20 → g (n + m) = x) : convAvg g n = x := by
  rw [convAvg]
  have heq : ((List.range 20).map fun m => g (n + m)) =
      (List.range 20).map fun _ => x :=
    List.map_congr_left fun m hm => h m (List.mem_range.mp hm)
  rw [heq, sum_map_const_q, List.length_range]
  push_cast
  ring

theorem convAvg_le_of_le (g h : ℕ → ℚ) (hle : ∀ i, g i ≤ h i) (n : ℕ) :
    convAvg g n ≤ convAvg h n := by
  rw [convAvg, convAvg]
  exact mul_le_mul_of_nonneg_left
    (List.sum_le_sum fun m _ => hle (n + m)) (by norm_num)

theorem convAvg_mono (g : ℕ → ℚ) (hg : ∀ i j, i ≤ j → g i ≤ g j)
    (n n' : ℕ) (hnn : n ≤ n') : convAvg g n ≤ convAvg g n' := by
  rw [convAvg, convAvg]
  exact mul_le_mul_of_nonneg_left
    (List.sum_le_sum fun m _ => hg _ _ (Nat.add_le_add_right hnn m)) (by norm_num)

theorem convAvg_anti (g : ℕ → ℚ) (hg : ∀ i j, i ≤ j → g j ≤ g i)
    (n n' : ℕ) (hnn : n ≤ n') : convAvg g n' ≤ convAvg g n := by
  rw [convAvg, convAvg]
  exact mul_le_mul_of_nonneg_left
    (List.sum_le_sum fun m _ => hg _ _ (Nat.add_le_add_right hnn m)) (by norm_num)

theorem stepF_mono (L R : ℚ) (h : L ≤ R) :
    ∀ i j, i ≤ j → stepF L R i ≤ stepF L R j := by
  intro i j hij
  by_cases hi : i < 50 <;> by_cases hj : j < 50
  · simp [stepF, hi, hj]
  · simp [stepF, hi, hj, h]
  · omega
  · simp [stepF, hi, hj]

theorem stepF_anti (L R : ℚ) (h : R ≤ L) :
    ∀ i j, i ≤ j → stepF L R j ≤ stepF L R i := by
  intro i j hij
  by_cases hi : i < 50 <;> by_cases hj : j < 50
  · simp [stepF, hi, hj]
  · simp [stepF, hi, hj, h]
  · omega
  · simp [stepF, hi, hj]

theorem stepF_bounds (L R : ℚ) (i : ℕ) :
    min L R ≤ stepF L R i ∧ stepF L R i ≤ max L R := by
  by_cases hi : i < 50 <;>
    simp [stepF, hi, min_le_left, min_le_right, le_max_left, le_max_right]

theorem conv1_eq_left (L R : ℚ) (n : ℕ) (h : n ≤ 30) : conv1 L R n = L :=
  convAvg_const_window _ _ _ fun m hm => by
    rw [stepF, if_pos (by omega)]

theorem conv1_eq_right (L R : ℚ) (n : ℕ) (h : 50 ≤ n) : conv1 L R n = R :=
  convAvg_const_window _ _ _ fun m _ => by
    rw [stepF, if_neg (by omega)]

theorem conv2_start (L R : ℚ) : conv2 L R 0 = L :=
  convAvg_const_window _ _ _ fun m hm => conv1_eq_left L R (0 + m) (by omega)

theorem conv2_end (L R : ℚ) : conv2 L R 61 = R :=
  convAvg_const_window _ _ _ fun m _ => conv1_eq_right L R (61 + m) (by omega)

theorem conv1_bounds (L R : ℚ) (n : ℕ) :
    min L R ≤ conv1 L R n ∧ conv1 L R n ≤ max L R := by
  have hmin : convAvg (fun _ => min L R) n = min L R :=
    convAvg_const_window _ _ _ fun _ _ => rfl
  have hmax : convAvg (fun _ => max L R) n = max L R :=
    convAvg_const_window _ _ _ fun _ _ => rfl
  exact ⟨hmin ▸ convAvg_le_of_le _ _ (fun i => (stepF_bounds L R i).1) n,
    hmax ▸ convAvg_le_of_le _ _ (fun i => (stepF_bounds L R i).2) n⟩

theorem conv2_bounds (L R : ℚ) (n : ℕ) :
    min L R ≤ conv2 L R n ∧ conv2 L R n ≤ max L R := by
  have hmin : convAvg (fun _ => min L R) n = min L R :=
    convAvg_const_window _ _ _ fun _ _ => rfl
  have hmax : convAvg (fun _ => max L R) n = max L R :=
    convAvg_const_window _ _ _ fun _ _ => rfl
  exact ⟨hmin ▸ convAvg_le_of_le _ _ (fun i => (conv1_bounds L R i).1) n,
    hmax ▸ convAvg_le_of_le _ _ (fun i => (conv1_bounds L R i).2) n⟩

/-- C8: the 62-sample smoothed center curve of the strip for a pair starts
exactly at the left center `leftBottom + flow/2`, ends exactly at the right
center `rightBottom + flow/2`, is monotone between them (non-decreasing when
the left center is below the right one, non-increasing otherwise), and never
leaves the closed interval between the two centers. -/
theorem ribbon_curve (lb rb : ℚ) (flow : ℕ) :
    (ribbonYs lb rb flow).head? = some (lb + (flow : ℚ) / 2) ∧
      (ribbonYs lb rb flow).getLast? = some (rb + (flow : ℚ) / 2) ∧
      (lb + (flow : ℚ) / 2 ≤ rb + (flow : ℚ) / 2 →
        ∀ i j, i ≤ j →
          conv2 (lb + (flow : ℚ) / 2) (rb + (flow : ℚ) / 2) i ≤
            conv2 (lb + (flow : ℚ) / 2) (rb + (flow : ℚ) / 2) j) ∧
      (rb + (flow : ℚ) / 2 ≤ lb + (flow : ℚ) / 2 →
        ∀ i j, i ≤ j →
          conv2 (lb + (flow : ℚ) / 2) (rb + (flow : ℚ) / 2) j ≤
            conv2 (lb + (flow : ℚ) / 2) (rb + (flow : ℚ) / 2) i) ∧
      ∀ y ∈ ribbonYs lb rb flow,
        min (lb + (flow : ℚ) / 2) (rb + (flow : ℚ) / 2) ≤ y ∧
          y ≤ max (lb + (flow : ℚ) / 2) (rb + (flow : ℚ) / 2) := by
  refine ⟨?_, ?_, ?_, ?_, ?_⟩
  · have h0 : (ribbonYs lb rb flow).head? =
        some (conv2 (lb + (flow : ℚ) / 2) (rb + (flow : ℚ) / 2) 0) := rfl
    rw [h0, conv2_start]
  · have h61 : (ribbonYs lb rb flow).getLast? =
        some (conv2 (lb + (flow : ℚ) / 2) (rb + (flow : ℚ) / 2) 61) := rfl
    rw [h61, conv2_end]
  · intro h i j hij
    exact convAvg_mono _ (convAvg_mono _ (stepF_mono _ _ h)) i j hij
  · intro h i j hij
    exact convAvg_anti _ (convAvg_anti _ (stepF_anti _ _ h)) i j hij
  · intro y hy
    rcases List.mem_map.mp hy with ⟨n, _, rfl⟩
    exact conv2_bounds _ _ n

/-- C8 witness at `lb = 0`, `rb = 1`, `flow = 0`, samples 3 and 40. -/
theorem ribbon_curve_witness :
    conv2 ((0 : ℚ) + ((0 : ℕ) : ℚ) / 2) ((1 : ℚ) + ((0 : ℕ) : ℚ) / 2) 3 ≤
      conv2 ((0 : ℚ) + ((0 : ℕ) : ℚ) / 2) ((1 : ℚ) + ((0 : ℕ) : ℚ) / 2) 40 :=
  (ribbon_curve 0 1 0).2.2.1 (by norm_num) 3 40 (by norm_num)

/-! ### Whole-call behaviour -/

theorem getLast?_isSome_of_ne_nil :
    ∀ l : List β, l ≠ [] → ∃ x, l.getLast? = some x := by
  intro l
  induction l with
  | nil => intro h; exact absurd rfl h
  | cons a t ih =>
    intro _
    cases t with
    | nil => exact ⟨a, rfl⟩
    | cons b t2 =>
      rcases ih (by simp) with ⟨x, hx⟩
      exact ⟨x, by rw [List.getLast?_cons_cons]; exact hx⟩

theorem buildWidths_length (before after : List α) :
    ∀ (ls : List α) (b : ℚ),
      (buildWidths before after ls b).length = ls.length := by
  intro ls
  induction ls with
  | nil => intro b; rfl
  | cons l ls ih =>
    intro b
    rw [buildWidths]
    simp [ih]

theorem topEdgeOpt_isSome (before after : List α)
    (h2 : 2 ≤ (allLabelsList before after).length) :
    ∃ te, topEdgeOpt before after = some te := by
  have hlen : (widthsList before after).length =
      (allLabelsList before after).length :=
    buildWidths_length before after _ 0
  have hne : widthsList before after ≠ [] := by
    intro h
    rw [h] at hlen
    simp at hlen
    omega
  rcases getLast?_isSome_of_ne_nil _ hne with ⟨p, hp⟩
  have hge : 2 ≤ (widthsList before after).length := by rw [hlen]; exact h2
  refine ⟨p.2.top, ?_⟩
  rw [topEdgeOpt, if_pos hge, hp]
  rfl

theorem drawBlocks_missing (cd : α → Option γ) (w : α → LabelGeom)
    (xMax fs : ℚ) :
    ∀ ls : List α, (∃ l ∈ ls, cd l = none) →
      ∃ m, (drawBlocks cd w xMax fs ls).2 = some m ∧ m ∈ ls ∧ cd m = none := by
  intro ls
  induction ls with
  | nil =>
    rintro ⟨l, hl, -⟩
    exact absurd hl (List.not_mem_nil l)
  | cons l rest ih =>
    rintro ⟨l0, hl0, hcd0⟩
    cases hcl : cd l with
    | none =>
      exact ⟨l, by simp [drawBlocks, hcl], List.mem_cons_self l rest, hcl⟩
    | some c =>
      have hl0r : l0 ∈ rest := by
        rcases List.mem_cons.mp hl0 with rfl | h
        · rw [hcl] at hcd0
          cases hcd0
        · exact h
      rcases ih ⟨l0, hl0r, hcd0⟩ with ⟨m, hm, hmem, hcdm⟩
      exact ⟨m, by simp [drawBlocks, hcl, hm], List.mem_cons_of_mem l hmem, hcdm⟩

theorem drawBlocks_shape {γ1 γ2 : Type} (cd1 : α → Option γ1)
    (cd2 : α → Option γ2) (w : α → LabelGeom) (xMax fs1 fs2 : ℚ) :
    ∀ ls : List α,
      (drawBlocks cd1 w xMax fs1 ls).2 = none →
      (drawBlocks cd2 w xMax fs2 ls).2 = none →
      (drawBlocks cd1 w xMax fs1 ls).1.map shapeOf =
        (drawBlocks cd2 w xMax fs2 ls).1.map shapeOf := by
  intro ls
  induction ls with
  | nil => intro _ _; rfl
  | cons l rest ih =>
    intro h1 h2
    cases hc1 : cd1 l with
    | none => simp [drawBlocks, hc1] at h1
    | some c1 =>
      cases hc2 : cd2 l with
      | none => simp [drawBlocks, hc2] at h2
      | some c2 =>
        have h1r : (drawBlocks cd1 w xMax fs1 rest).2 = none := by
          simpa [drawBlocks, hc1] using h1
        have h2r : (drawBlocks cd2 w xMax fs2 rest).2 = none := by
          simpa [drawBlocks, hc2] using h2
        simp [drawBlocks, hc1, hc2, shapeOf, ih h1r h2r]

theorem drawRibbons_shape {γ1 γ2 : Type} (cd1 : α → Option γ1)
    (cd2 : α → Option γ2) (f : α → α → ℕ) (xMax : ℚ) (rc1 rc2 : Bool) :
    ∀ (ps : List (α × α)) (lb rb : α → ℚ),
      (drawRibbons cd1 f xMax rc1 ps lb rb).2 = none →
      (drawRibbons cd2 f xMax rc2 ps lb rb).2 = none →
      (drawRibbons cd1 f xMax rc1 ps lb rb).1.map shapeOf =
        (drawRibbons cd2 f xMax rc2 ps lb rb).1.map shapeOf := by
  intro ps
  induction ps with
  | nil => intro lb rb _ _; rfl
  | cons p ps ih =>
    rcases p with ⟨l, l2⟩
    intro lb rb h1 h2
    cases hc1 : cd1 (if rc1 then l2 else l) with
    | none => simp [drawRibbons, hc1] at h1
    | some c1 =>
      cases hc2 : cd2 (if rc2 then l2 else l) with
      | none => simp [drawRibbons, hc2] at h2
      | some c2 =>
        have h1r : (drawRibbons cd1 f xMax rc1 ps
            (updF lb l (f l l2)) (updF rb l2 (f l l2))).2 = none := by
          simpa [drawRibbons, hc1] using h1
        have h2r : (drawRibbons cd2 f xMax rc2 ps
            (updF lb l (f l l2)) (updF rb l2 (f l l2))).2 = none := by
          simpa [drawRibbons, hc2] using h2
        simp [drawRibbons, hc1, hc2, shapeOf, ih _ _ h1r h2r]

/-- C1: on the single-category input `before = after = ["A","A"]` the call
does not complete; it raises the `topEdge` `NameError` at line 97 (the
variable is only assigned in the `i > 0` branch of the widths loop), after
creating the figure and before drawing any block or ribbon. -/
theorem single_category_crash :
    sankeyModel (fun _ => (0 : ℕ)) ["A", "A"] ["A", "A"] none 4 false 14 =
      { trace := [DrawCmd.newFigure],
        err := some SankeyError.topEdgeUndefined } := by
  decide

/-- C3: on empty inputs the call does not degenerate to an empty diagram; it
raises the `IndexError` of line 58 (`[:, 0]` on the empty 1-D `most_common`
array), after creating the figure and before drawing anything. -/
theorem empty_input_crash :
    sankeyModel (fun _ => (0 : ℕ)) ([] : List String) [] none 4 false 14 =
      { trace := [DrawCmd.newFigure],
        err := some SankeyError.emptyIndexError } := by
  decide

/-- C4 counterexample: with `len(before) = 3`, `len(after) = 2` the call does
fail with the invalid-input error, but the drawing surface is not unchanged:
the figure-creation command has already been issued (`plt.figure()` runs at
line 46, before the DataFrame length check at line 50). -/
theorem length_mismatch_cex :
    (sankeyModel (fun _ => (0 : ℕ)) ["A", "B", "C"] ["X", "Y"]
        (some [("A", 0), ("B", 1), ("C", 2), ("X", 3), ("Y", 4)]) 4 false 14).err =
        some SankeyError.lengthMismatch ∧
      (sankeyModel (fun _ => (0 : ℕ)) ["A", "B", "C"] ["X", "Y"]
        (some [("A", 0), ("B", 1), ("C", 2), ("X", 3), ("Y", 4)]) 4 false 14).trace ≠
        [] := by
  exact ⟨by decide, by decide⟩

/-- C4 amended: on a length mismatch the call fails immediately with the
invalid-input error, having issued no drawing command except the creation of
the new (still empty) figure: no block, ribbon or text is drawn. -/
theorem length_mismatch_halts (pal : ℕ → γ) (before after : List α)
    (colorDict : Option (List (α × γ))) (aspect : ℚ) (rightColor : Bool)
    (fontsize : ℚ) (h : before.length ≠ after.length) :
    sankeyModel pal before after colorDict aspect rightColor fontsize =
      { trace := [DrawCmd.newFigure],
        err := some SankeyError.lengthMismatch } := by
  rw [sankeyModel, if_pos h]

/-- C4 witness at `before = ["A","B","C"]`, `after = ["X","Y"]`. -/
theorem length_mismatch_halts_witness :
    sankeyModel (fun _ => (0 : ℕ)) ["A", "B", "C"] ["X", "Y"] none 4 false 14 =
      { trace := [DrawCmd.newFigure],
        err := some SankeyError.lengthMismatch } :=
  length_mismatch_halts _ _ _ _ _ _ _ (by decide)

/-- C9 counterexample: with the single-category input `before = after = ["A"]`
and an empty supplied color map, the category `"A"` has no color entry and yet
the call does not fail with a color lookup failure: it fails earlier with the
`topEdge` `NameError`. -/
theorem missing_color_cex :
    (sankeyModel (fun _ => (0 : ℕ)) ["A"] ["A"]
        (some ([] : List (String × ℕ))) 4 false 14).err =
        some SankeyError.topEdgeUndefined ∧
      (sankeyModel (fun _ => (0 : ℕ)) ["A"] ["A"]
        (some ([] : List (String × ℕ))) 4 false 14).err ≠
        some (SankeyError.missingColor "A") := by
  exact ⟨by decide, by decide⟩

/-- C9 amended: provided the two inputs have equal length and at least two
distinct categories occur, a supplied color map lacking an entry for some
present category makes the call fail with a lookup failure that names a
missing category (the first one reached in drawing order). -/
theorem missing_color_error (pal : ℕ → γ) (before after : List α)
    (d : List (α × γ)) (aspect : ℚ) (rightColor : Bool) (fontsize : ℚ)
    (hlen : before.length = after.length)
    (h2 : 2 ≤ (allLabelsList before after).length)
    (hmiss : ∃ l ∈ allLabelsList before after, assocGet d l = none) :
    ∃ m, (sankeyModel pal before after (some d) aspect rightColor fontsize).err =
        some (SankeyError.missingColor m) ∧
      m ∈ allLabelsList before after ∧ assocGet d m = none := by
  have hne : ¬ before.length ≠ after.length := fun hk => hk hlen
  have hE : (allLabelsList before after).isEmpty = false := by
    cases hL : allLabelsList before after with
    | nil => rw [hL] at h2; simp at h2
    | cons a t => rfl
  rcases topEdgeOpt_isSome before after h2 with ⟨te, hte⟩
  rcases drawBlocks_missing
      (colorFun pal (allLabelsList before after) (some d))
      (geomOf before after) (te / aspect) fontsize
      (allLabelsList before after) hmiss with ⟨m, hm, hmem, hcdm⟩
  refine ⟨m, ?_, hmem, hcdm⟩
  simp only [sankeyModel, if_neg hne, hE, Bool.false_eq_true, if_false, hte,
    hm]

/-- C9 witness: `before = ["A","B"]`, `after = ["B","A"]`, color map with only
`"B"`. -/
theorem missing_color_error_witness :
    ∃ m, (sankeyModel (fun _ => (0 : ℕ)) ["A", "B"] ["B", "A"]
        (some [("B", 0)]) 4 false 14).err = some (SankeyError.missingColor m) ∧
      m ∈ allLabelsList ["A", "B"] ["B", "A"] ∧
      assocGet [("B", 0)] m = none :=
  missing_color_error _ _ _ _ _ _ _ (by decide) (by decide)
    ⟨"A", by decide, by decide⟩

/-- C10: the issued drawing commands, with colors and font sizes erased, are
identical for two calls that agree on `before`, `after` and `aspect` but use
arbitrary different color dictionaries, palettes, `rightColor` flags and font
sizes — provided neither call raises.  In particular the flow table, all
block extents, `xMax` and all ribbon curves depend only on `before`, `after`
and `aspect`. -/
theorem geometry_independent {γ1 γ2 : Type} (pal1 : ℕ → γ1) (pal2 : ℕ → γ2)
    (before after : List α) (cd1 : Option (List (α × γ1)))
    (cd2 : Option (List (α × γ2))) (aspect : ℚ) (rc1 rc2 : Bool)
    (fs1 fs2 : ℚ)
    (h1 : (sankeyModel pal1 before after cd1 aspect rc1 fs1).err = none)
    (h2 : (sankeyModel pal2 before after cd2 aspect rc2 fs2).err = none) :
    (sankeyModel pal1 before after cd1 aspect rc1 fs1).trace.map shapeOf =
      (sankeyModel pal2 before after cd2 aspect rc2 fs2).trace.map shapeOf := by
  by_cases hL : before.length ≠ after.length
  · simp [sankeyModel, if_pos hL] at h1
  · cases hE : (allLabelsList before after).isEmpty with
    | true => simp [sankeyModel, if_neg hL, hE] at h1
    | false =>
      cases hT : topEdgeOpt before after with
      | none => simp [sankeyModel, if_neg hL, hE, hT] at h1
      | some te =>
        cases hB1 : (drawBlocks (colorFun pal1 (allLabelsList before after) cd1)
            (geomOf before after) (te / aspect) fs1
            (allLabelsList before after)).2 with
        | some m => simp [sankeyModel, if_neg hL, hE, hT, hB1] at h1
        | none =>
          cases hB2 : (drawBlocks (colorFun pal2 (allLabelsList before after) cd2)
              (geomOf before after) (te / aspect) fs2
              (allLabelsList before after)).2 with
          | some m => simp [sankeyModel, if_neg hL, hE, hT, hB2] at h2
          | none =>
            cases hR1 : (drawRibbons
                (colorFun pal1 (allLabelsList before after) cd1)
                (nsF before after) (te / aspect) rc1
                (allPairs (allLabelsList before after))
                (initLB before after) (initRB before after)).2 with
            | some m => simp [sankeyModel, if_neg hL, hE, hT, hB1, hR1] at h1
            | none =>
              cases hR2 : (drawRibbons
                  (colorFun pal2 (allLabelsList before after) cd2)
                  (nsF before after) (te / aspect) rc2
                  (allPairs (allLabelsList before after))
                  (initLB before after) (initRB before after)).2 with
              | some m => simp [sankeyModel, if_neg hL, hE, hT, hB2, hR2] at h2
              | none =>
                have ht1 : (sankeyModel pal1 before after cd1 aspect rc1 fs1).trace =
                    DrawCmd.newFigure ::
                      ((drawBlocks (colorFun pal1 (allLabelsList before after) cd1)
                          (geomOf before after) (te / aspect) fs1
                          (allLabelsList before after)).1 ++
                        ((drawRibbons (colorFun pal1 (allLabelsList before after) cd1)
                            (nsF before after) (te / aspect) rc1
                            (allPairs (allLabelsList before after))
                            (initLB before after) (initRB before after)).1 ++
                          [DrawCmd.axisOff])) := by
                  simp [sankeyModel, if_neg hL, hE, hT, hB1, hR1]
                have ht2 : (sankeyModel pal2 before after cd2 aspect rc2 fs2).trace =
                    DrawCmd.newFigure ::
                      ((drawBlocks (colorFun pal2 (allLabelsList before after) cd2)
                          (geomOf before after) (te / aspect) fs2
                          (allLabelsList before after)).1 ++
                        ((drawRibbons (colorFun pal2 (allLabelsList before after) cd2)
                            (nsF before after) (te / aspect) rc2
                            (allPairs (allLabelsList before after))
                            (initLB before after) (initRB before after)).1 ++
                          [DrawCmd.axisOff])) := by
                  simp [sankeyModel, if_neg hL, hE, hT, hB2, hR2]
                rw [ht1, ht2]
                simp only [List.map_cons, List.map_append]
                rw [drawBlocks_shape _ _ _ _ _ _ _ hB1 hB2,
                  drawRibbons_shape _ _ _ _ _ _ _ _ _ hR1 hR2]
                rfl

/-- C10 witness: same data, different color dictionary, palette, `rightColor`
and font size. -/
theorem geometry_independent_witness :
    (sankeyModel (fun _ => (5 : ℕ)) ["A", "B"] ["B", "A"]
        (some [("A", 0), ("B", 1)]) 4 false 14).trace.map shapeOf =
      (sankeyModel (fun n => n + 7) ["A", "B"] ["B", "A"] none 4 true
        10).trace.map shapeOf :=
  geometry_independent _ _ _ _ _ _ _ _ _ _ _ (by decide) (by decide)

end PySankey
